import Mathlib

/-! Flocking manager (boids): embedding of `FlockingManager.cpp` / `FlockingManager.h`

The C++ code works on the engine's `float` and `FVector`.  Here the scalar type is
an arbitrary linearly ordered field `F` and the engine's square root is a parameter
`sqrt : F → F`; theorems that need it assume `IsSqrt sqrt`.  With `F = ℚ` and any
computable `sqrt` every definition below can be evaluated; with `F = ℝ` and
`Real.sqrt` the assumption `IsSqrt` holds.

Arithmetic in `F` is exact: the rounding, overflow and NaN of the engine's
floating-point types are not modelled, nor is the narrowing of a distance to
`float d`.  The properties settled below are therefore identities between the
code and a reference built from the same operations, frame properties, and
evaluations at concrete inputs; no exact bound on a computed size or distance is
claimed of the code.

An `AAgent*` is modelled by the index of the actor in `Agents` (pointer identity:
`Agents` is private and only `Init` appends to it, one freshly spawned actor per
entry) together with the actor it points to.

`FVector` and its operations belong to the engine (Unreal Engine,
`Math/Vector.h`), not to this repository; they are modelled after the engine's
definitions, with the default tolerance `SMALL_NUMBER` of `GetSafeNormal` and
`Normalize`. What `Init` takes from the engine and the host (`PI`, `Sin`, `Cos`,
`RandRange`, a default-constructed `FVector`, the spawned agent's velocity) is a
parameter, `InitEnv`.
-/

set_option linter.unusedSectionVars false

namespace Flocking

/-! ## Engine vector type -/

/-- FVector of the engine: three scalar components. -/
@[ext]
structure FVector (F : Type) where
  X : F
  Y : F
  Z : F
deriving DecidableEq, Repr

namespace FVector

variable {F : Type} [LinearOrderedField F]

/-- The engine constant `FVector::ZeroVector`. -/
def ZeroVector : FVector F := ⟨0, 0, 0⟩

/-- The engine constant `SMALL_NUMBER`, the `float` literal `1.e-8f`, default
tolerance of the normalisations: the binary32 value nearest to `1e-8`,
`11258999 / 2^50` (about `9.99999994e-9`). -/
def SMALL_NUMBER : F := 11258999 / 1125899906842624

/-- Engine `operator+` (and `+=`). -/
def add (a b : FVector F) : FVector F := ⟨a.X + b.X, a.Y + b.Y, a.Z + b.Z⟩

/-- Engine `operator-` (binary). -/
def sub (a b : FVector F) : FVector F := ⟨a.X - b.X, a.Y - b.Y, a.Z - b.Z⟩

/-- Engine unary `operator-`. -/
def neg (a : FVector F) : FVector F := ⟨-a.X, -a.Y, -a.Z⟩

/-- Engine `operator*(float Scale)`. -/
def scale (v : FVector F) (s : F) : FVector F := ⟨v.X * s, v.Y * s, v.Z * s⟩

/-- Engine `operator/=(float V)`: multiplies every component by `1.f/V`. -/
def divScalar (v : FVector F) (s : F) : FVector F :=
  let RV := 1 / s
  ⟨v.X * RV, v.Y * RV, v.Z * RV⟩

/-- Engine `SizeSquared()`. -/
def SizeSquared (v : FVector F) : F := v.X * v.X + v.Y * v.Y + v.Z * v.Z

/-- Engine `Size()`: `Sqrt(X*X + Y*Y + Z*Z)`. -/
def Size (sqrt : F → F) (v : FVector F) : F := sqrt (v.X * v.X + v.Y * v.Y + v.Z * v.Z)

/-- Engine `FVector::DistSquared(V1, V2)`. -/
def DistSquared (V1 V2 : FVector F) : F :=
  (V2.X - V1.X) * (V2.X - V1.X) + (V2.Y - V1.Y) * (V2.Y - V1.Y) + (V2.Z - V1.Z) * (V2.Z - V1.Z)

/-- Engine `FVector::Dist(V1, V2)`: `Sqrt(DistSquared(V1, V2))`. -/
def Dist (sqrt : F → F) (V1 V2 : FVector F) : F := sqrt (DistSquared V1 V2)

/-- Engine `GetSafeNormal(Tolerance = SMALL_NUMBER)`, after `Math/Vector.h`: the
vector itself when its squared size is exactly 1, the zero vector when the squared
size is below `SMALL_NUMBER`, the vector scaled by `InvSqrt(SquareSum)` otherwise. -/
def GetSafeNormal (sqrt : F → F) (v : FVector F) : FVector F :=
  let SquareSum := v.X * v.X + v.Y * v.Y + v.Z * v.Z
  if SquareSum = 1 then v
  else if SquareSum < SMALL_NUMBER then ZeroVector
  else
    let Scale := 1 / sqrt SquareSum
    ⟨v.X * Scale, v.Y * Scale, v.Z * Scale⟩

/-- Engine `Normalize(Tolerance = SMALL_NUMBER)`, after `Math/Vector.h`: scales in
place by `InvSqrt(SquareSum)` when the squared size exceeds `SMALL_NUMBER` (and
returns true), and leaves the vector as it is otherwise (and returns false). -/
def Normalize (sqrt : F → F) (v : FVector F) : FVector F :=
  let SquareSum := v.X * v.X + v.Y * v.Y + v.Z * v.Z
  if SquareSum > SMALL_NUMBER then
    let Scale := 1 / sqrt SquareSum
    ⟨v.X * Scale, v.Y * Scale, v.Z * Scale⟩
  else v

end FVector

open FVector

/-! ## Data model -/

/-- The host world handle held by the manager (only tested against `nullptr`). -/
inductive UWorld where
  | world : UWorld
deriving DecidableEq, Repr

/-- What the manager reads and writes of an `AAgent`: the actor location
(`GetActorLocation()`) and the public member `Velocity`. -/
structure AAgent (F : Type) where
  Location : FVector F
  Velocity : FVector F
deriving DecidableEq, Repr

/-- The fields of `UFlockingManager` (FlockingManager.h). -/
structure UFlockingManager (F : Type) where
  NeighborRadius : F
  DesiredSeparation : F
  MaxSpeed : F
  MaxForce : F
  seperationWeight : F
  alignmentWeight : F
  cohesionWeight : F
  World : Option UWorld
  initialized : Bool
  Agents : List (AAgent F)
deriving Repr

variable {F : Type} [LinearOrderedField F]

/-- The square root the engine's `Size`, `Dist` and `InvSqrt` are built on, in
exact arithmetic: on non-negative arguments, the non-negative root. -/
def IsSqrt (sqrt : F → F) : Prop :=
  ∀ x : F, 0 ≤ x → 0 ≤ sqrt x ∧ sqrt x * sqrt x = x

/-! ## `UFlockingManager::LimitVector` -/

/-- `LimitVector(v, max)`: the new value of the reference parameter `v`. -/
def LimitVector (sqrt : F → F) (v : FVector F) (max : F) : FVector F :=
  if Size sqrt v > max then (GetSafeNormal sqrt v).scale max else v

/-! ## The three rules -/

/-- Body of the scan of `RuleSeparation` after the self test, for one `other`. -/
def sepAccum (sqrt : F → F) (m : UFlockingManager F) (agent : AAgent F)
    (acc : FVector F × Nat) (other : AAgent F) : FVector F × Nat :=
  let d := Dist sqrt agent.Location other.Location
  if d < m.DesiredSeparation ∧ d > 0 then
    let diff := sub agent.Location other.Location
    let diff := Normalize sqrt diff
    let diff := divScalar diff d
    (add acc.1 diff, acc.2 + 1)
  else acc

/-- One iteration of the scan of `RuleSeparation`: `if (other == agent) continue;`
then the body. -/
def sepStep (sqrt : F → F) (m : UFlockingManager F) (self : Nat) (agent : AAgent F)
    (acc : FVector F × Nat) (other : Nat × AAgent F) : FVector F × Nat :=
  if other.1 = self then acc else sepAccum sqrt m agent acc other.2

/-- What `RuleSeparation` does after its scan: average by the count, limit to `MaxForce`. -/
def sepFinish (sqrt : F → F) (m : UFlockingManager F) (acc : FVector F × Nat) : FVector F :=
  let steer := if acc.2 > 0 then divScalar acc.1 (acc.2 : F) else acc.1
  LimitVector sqrt steer m.MaxForce

/-- `UFlockingManager::RuleSeparation(agent)`; `self` is the index of `agent` in `Agents`. -/
def RuleSeparation (sqrt : F → F) (m : UFlockingManager F) (self : Nat) (agent : AAgent F) :
    FVector F :=
  sepFinish sqrt m (m.Agents.enum.foldl (sepStep sqrt m self agent) (ZeroVector, 0))

/-- Body of the scan of `RuleAlignment` after the self test, for one `other`. -/
def aliAccum (sqrt : F → F) (m : UFlockingManager F) (agent : AAgent F)
    (acc : FVector F × Nat) (other : AAgent F) : FVector F × Nat :=
  let d := Dist sqrt agent.Location other.Location
  if d < m.NeighborRadius then (add acc.1 other.Velocity, acc.2 + 1) else acc

/-- One iteration of the scan of `RuleAlignment`. -/
def aliStep (sqrt : F → F) (m : UFlockingManager F) (self : Nat) (agent : AAgent F)
    (acc : FVector F × Nat) (other : Nat × AAgent F) : FVector F × Nat :=
  if other.1 = self then acc else aliAccum sqrt m agent acc other.2

/-- What `RuleAlignment` does after its scan. -/
def aliFinish (sqrt : F → F) (m : UFlockingManager F) (agent : AAgent F)
    (acc : FVector F × Nat) : FVector F :=
  if acc.2 > 0 then
    let sum := divScalar acc.1 (acc.2 : F)
    let sum := (GetSafeNormal sqrt sum).scale m.MaxSpeed
    let steer := sub sum agent.Velocity
    LimitVector sqrt steer m.MaxForce
  else ZeroVector

/-- `UFlockingManager::RuleAlignment(agent)`. -/
def RuleAlignment (sqrt : F → F) (m : UFlockingManager F) (self : Nat) (agent : AAgent F) :
    FVector F :=
  aliFinish sqrt m agent (m.Agents.enum.foldl (aliStep sqrt m self agent) (ZeroVector, 0))

/-- Body of the scan of `RuleCohesion` after the self test, for one `other`. -/
def cohAccum (sqrt : F → F) (m : UFlockingManager F) (agent : AAgent F)
    (acc : FVector F × Nat) (other : AAgent F) : FVector F × Nat :=
  let d := Dist sqrt agent.Location other.Location
  if d < m.NeighborRadius then (add acc.1 other.Location, acc.2 + 1) else acc

/-- One iteration of the scan of `RuleCohesion`. -/
def cohStep (sqrt : F → F) (m : UFlockingManager F) (self : Nat) (agent : AAgent F)
    (acc : FVector F × Nat) (other : Nat × AAgent F) : FVector F × Nat :=
  if other.1 = self then acc else cohAccum sqrt m agent acc other.2

/-- What `RuleCohesion` does after its scan. -/
def cohFinish (sqrt : F → F) (m : UFlockingManager F) (agent : AAgent F)
    (acc : FVector F × Nat) : FVector F :=
  if acc.2 > 0 then
    let center := divScalar acc.1 (acc.2 : F)
    let desired := sub center agent.Location
    let desired := (GetSafeNormal sqrt desired).scale m.MaxSpeed
    let steer := sub desired agent.Velocity
    LimitVector sqrt steer m.MaxForce
  else ZeroVector

/-- `UFlockingManager::RuleCohesion(agent)`. -/
def RuleCohesion (sqrt : F → F) (m : UFlockingManager F) (self : Nat) (agent : AAgent F) :
    FVector F :=
  cohFinish sqrt m agent (m.Agents.enum.foldl (cohStep sqrt m self agent) (ZeroVector, 0))

/-! ## `UFlockingManager::Flock` -/

/-- The velocity the body of the loop of `Flock` gives `agent`, read on the
manager state `m` of that moment. -/
def newVelocity (sqrt : F → F) (m : UFlockingManager F) (DeltaTime : F) (self : Nat)
    (agent : AAgent F) : FVector F :=
  let sep := RuleSeparation sqrt m self agent
  let ali := RuleAlignment sqrt m self agent
  let coh := RuleCohesion sqrt m self agent
  let accel := add (add (sep.scale m.seperationWeight) (ali.scale m.alignmentWeight))
    (coh.scale m.cohesionWeight)
  LimitVector sqrt (add agent.Velocity (accel.scale DeltaTime)) m.MaxSpeed

/-- One iteration of the loop of `Flock`, for the agent at index `i`: its velocity
is overwritten in place. -/
def flockStep (sqrt : F → F) (DeltaTime : F) (m : UFlockingManager F) (i : Nat) :
    UFlockingManager F :=
  match m.Agents[i]? with
  | none => m
  | some agent =>
    { m with Agents := m.Agents.set i { agent with Velocity := newVelocity sqrt m DeltaTime i agent } }

/-- The first `k` iterations of the loop of `Flock`. -/
def flockLoop (sqrt : F → F) (DeltaTime : F) (m : UFlockingManager F) (k : Nat) :
    UFlockingManager F :=
  (List.range k).foldl (flockStep sqrt DeltaTime) m

/-- `UFlockingManager::Flock(DeltaTime)`: the manager after the call. -/
def Flock (sqrt : F → F) (m : UFlockingManager F) (DeltaTime : F) : UFlockingManager F :=
  if !m.initialized then m else flockLoop sqrt DeltaTime m m.Agents.length

/-- Every field of the manager other than `Agents` is the same in both managers. -/
def SameConfig (m m2 : UFlockingManager F) : Prop :=
  m2.NeighborRadius = m.NeighborRadius ∧ m2.DesiredSeparation = m.DesiredSeparation ∧
  m2.MaxSpeed = m.MaxSpeed ∧ m2.MaxForce = m.MaxForce ∧
  m2.seperationWeight = m.seperationWeight ∧ m2.alignmentWeight = m.alignmentWeight ∧
  m2.cohesionWeight = m.cohesionWeight ∧ m2.World = m.World ∧ m2.initialized = m.initialized

/-! ## Reference definitions (from the specification's words) -/

/-- Reference, after the specification: the two-pass step "compute all, then write
all": every new velocity is computed on the pre-step manager `m`. -/
def FlockTwoPass (sqrt : F → F) (m : UFlockingManager F) (DeltaTime : F) : UFlockingManager F :=
  if !m.initialized then m
  else
    let written := m.Agents.enum.map
      (fun p => AAgent.mk p.2.Location (newVelocity sqrt m DeltaTime p.1 p.2))
    { m with Agents := written }

/-- Reference: the separation rule of `agent` computed over a list `others` of the
other agents, every element of which is scanned (no self test). -/
def SeparationOver (sqrt : F → F) (m : UFlockingManager F) (others : List (AAgent F))
    (agent : AAgent F) : FVector F :=
  sepFinish sqrt m (others.foldl (sepAccum sqrt m agent) (ZeroVector, 0))

/-- Reference: the alignment rule of `agent` over a list `others` of the other agents. -/
def AlignmentOver (sqrt : F → F) (m : UFlockingManager F) (others : List (AAgent F))
    (agent : AAgent F) : FVector F :=
  aliFinish sqrt m agent (others.foldl (aliAccum sqrt m agent) (ZeroVector, 0))

/-- Reference: the cohesion rule of `agent` over a list `others` of the other agents. -/
def CohesionOver (sqrt : F → F) (m : UFlockingManager F) (others : List (AAgent F))
    (agent : AAgent F) : FVector F :=
  cohFinish sqrt m agent (others.foldl (cohAccum sqrt m agent) (ZeroVector, 0))

/-! ## The two-agent scenario of the specification -/

/-- Two agents at `(0,0,0)` and `(10,0,0)`, velocities zero, the default tuning
parameters of FlockingManager.h, initialised. -/
def twoAgents : UFlockingManager F where
  NeighborRadius := 200
  DesiredSeparation := 80
  MaxSpeed := 5
  MaxForce := 1 / 2
  seperationWeight := 3 / 2
  alignmentWeight := 1
  cohesionWeight := 1
  World := some UWorld.world
  initialized := true
  Agents := [⟨⟨0, 0, 0⟩, ZeroVector⟩, ⟨⟨10, 0, 0⟩, ZeroVector⟩]

/-- A single agent at rest, with a negative `MaxSpeed` and `MaxForce`. -/
def loneAgent : UFlockingManager F :=
  { (twoAgents : UFlockingManager F) with
    MaxSpeed := -1
    MaxForce := -1
    Agents := [⟨⟨1, 2, 3⟩, ZeroVector⟩] }

/-! ## Reference definitions for the three rules (from the specification's words) -/

/-- The macro `AGENT_COUNT`. -/
def AGENT_COUNT : Nat := 40

/-- What `Init` takes from the engine and the host: the constant `PI`, `FMath::Sin`
and `FMath::Cos`, the value the default-constructed `FVector()` of iteration `i`
holds (the engine declares it as "Default constructor (no initialization)" with an
empty body, so in each iteration the components are whatever the storage held,
for instance the `location` of the previous iteration; `Init` assigns `location.X`
and `location.Z` but never `location.Y` before adding to it), the successive
results of `FMath::RandRange(-50.f, 50.f)` in call order, and the velocity of agent
`i` once spawned and initialised by `agent->Init(mesh, i)`. -/
structure InitEnv (F : Type) where
  PI : F
  Sin : F → F
  Cos : F → F
  DefaultVector : Nat → FVector F
  RandRange : Nat → F
  SpawnVelocity : Nat → FVector F

/-- The `location` handed to `SpawnActor` in iteration `i` of the loop of `Init`. -/
def spawnLocation (env : InitEnv F) (incr : F) (i : Nat) : FVector F :=
  let location := env.DefaultVector i
  let location : FVector F := ⟨env.Sin (incr * (i : F)) * 150, location.Y, location.Z⟩
  let location : FVector F := ⟨location.X, location.Y, env.Cos (incr * (i : F)) * 150⟩
  let location : FVector F := ⟨location.X + env.RandRange (3 * i), location.Y, location.Z⟩
  let location : FVector F := ⟨location.X, location.Y + env.RandRange (3 * i + 1), location.Z⟩
  let location : FVector F := ⟨location.X, location.Y, location.Z + env.RandRange (3 * i + 2)⟩
  location

/-- One iteration of the loop of `Init`: with a non-null `World`, spawn an agent at
the location and append it to `Agents`. -/
def initStep (env : InitEnv F) (incr : F) (m : UFlockingManager F) (i : Nat) :
    UFlockingManager F :=
  match m.World with
  | none => m
  | some _ => { m with Agents := m.Agents ++ [⟨spawnLocation env incr i, env.SpawnVelocity i⟩] }

/-- `UFlockingManager::Init(world, mesh)`: the manager after the call. -/
def Init (env : InitEnv F) (m : UFlockingManager F) (world : Option UWorld) :
    UFlockingManager F :=
  let m1 := { m with World := world }
  let incr := (env.PI * 2) / (AGENT_COUNT : F)
  let m2 := (List.range AGENT_COUNT).foldl (initStep env incr) m1
  { m2 with initialized := true }

/-- A manager before `Init`: the default tuning parameters, no world, no agents,
not initialised. -/
def freshManager : UFlockingManager F :=
  { (twoAgents : UFlockingManager F) with
    World := none
    initialized := false
    Agents := [] }

/-! ## The operations with every divisor checked

Copies of the operations above in which each division first tests its divisor and
yields `none` on a zero divisor; everything else is as in the unchecked
definitions. -/

/-- `operator/=(float V)` with the divisor `V` of `1.f/V` checked. -/
def divScalarChecked (v : FVector F) (s : F) : Option (FVector F) :=
  if s = 0 then none else some (divScalar v s)

/-- `GetSafeNormal()` with the divisor of `InvSqrt(SquareSum)` checked. -/
def GetSafeNormalChecked (sqrt : F → F) (v : FVector F) : Option (FVector F) :=
  let SquareSum := v.X * v.X + v.Y * v.Y + v.Z * v.Z
  if SquareSum = 1 then some v
  else if SquareSum < SMALL_NUMBER then some ZeroVector
  else if sqrt SquareSum = 0 then none
  else
    let Scale := 1 / sqrt SquareSum
    some ⟨v.X * Scale, v.Y * Scale, v.Z * Scale⟩

/-- `Normalize()` with the divisor of `InvSqrt(SquareSum)` checked. -/
def NormalizeChecked (sqrt : F → F) (v : FVector F) : Option (FVector F) :=
  let SquareSum := v.X * v.X + v.Y * v.Y + v.Z * v.Z
  if SquareSum > SMALL_NUMBER then
    if sqrt SquareSum = 0 then none
    else
      let Scale := 1 / sqrt SquareSum
      some ⟨v.X * Scale, v.Y * Scale, v.Z * Scale⟩
  else some v

/-- `LimitVector` over the checked `GetSafeNormal`. -/
def LimitVectorChecked (sqrt : F → F) (v : FVector F) (max : F) : Option (FVector F) :=
  if Size sqrt v > max then (GetSafeNormalChecked sqrt v).map (fun n => n.scale max)
  else some v

/-- Body of the scan of `RuleSeparation`, divisions checked. -/
def sepAccumChecked (sqrt : F → F) (m : UFlockingManager F) (agent : AAgent F)
    (acc : FVector F × Nat) (other : AAgent F) : Option (FVector F × Nat) :=
  let d := FVector.Dist sqrt agent.Location other.Location
  if d < m.DesiredSeparation ∧ d > 0 then
    (NormalizeChecked sqrt (sub agent.Location other.Location)).bind (fun diff =>
      (divScalarChecked diff d).map (fun diff => (add acc.1 diff, acc.2 + 1)))
  else some acc

/-- One iteration of the scan of `RuleSeparation`, divisions checked. -/
def sepStepChecked (sqrt : F → F) (m : UFlockingManager F) (self : Nat) (agent : AAgent F)
    (acc : Option (FVector F × Nat)) (other : Nat × AAgent F) : Option (FVector F × Nat) :=
  acc.bind (fun acc => if other.1 = self then some acc
    else sepAccumChecked sqrt m agent acc other.2)

/-- The end of `RuleSeparation`, divisions checked. -/
def sepFinishChecked (sqrt : F → F) (m : UFlockingManager F) (acc : FVector F × Nat) :
    Option (FVector F) :=
  (if acc.2 > 0 then divScalarChecked acc.1 (acc.2 : F) else some acc.1).bind
    (fun steer => LimitVectorChecked sqrt steer m.MaxForce)

/-- `RuleSeparation`, divisions checked. -/
def RuleSeparationChecked (sqrt : F → F) (m : UFlockingManager F) (self : Nat)
    (agent : AAgent F) : Option (FVector F) :=
  (m.Agents.enum.foldl (sepStepChecked sqrt m self agent) (some (ZeroVector, 0))).bind
    (sepFinishChecked sqrt m)

/-- The end of `RuleAlignment`, divisions checked. -/
def aliFinishChecked (sqrt : F → F) (m : UFlockingManager F) (agent : AAgent F)
    (acc : FVector F × Nat) : Option (FVector F) :=
  if acc.2 > 0 then
    (divScalarChecked acc.1 (acc.2 : F)).bind (fun sum =>
      (GetSafeNormalChecked sqrt sum).bind (fun n =>
        LimitVectorChecked sqrt (sub (n.scale m.MaxSpeed) agent.Velocity) m.MaxForce))
  else some ZeroVector

/-- `RuleAlignment`, divisions checked (its scan has none). -/
def RuleAlignmentChecked (sqrt : F → F) (m : UFlockingManager F) (self : Nat)
    (agent : AAgent F) : Option (FVector F) :=
  aliFinishChecked sqrt m agent
    (m.Agents.enum.foldl (aliStep sqrt m self agent) (ZeroVector, 0))

/-- The end of `RuleCohesion`, divisions checked. -/
def cohFinishChecked (sqrt : F → F) (m : UFlockingManager F) (agent : AAgent F)
    (acc : FVector F × Nat) : Option (FVector F) :=
  if acc.2 > 0 then
    (divScalarChecked acc.1 (acc.2 : F)).bind (fun center =>
      (GetSafeNormalChecked sqrt (sub center agent.Location)).bind (fun n =>
        LimitVectorChecked sqrt (sub (n.scale m.MaxSpeed) agent.Velocity) m.MaxForce))
  else some ZeroVector

/-- `RuleCohesion`, divisions checked (its scan has none). -/
def RuleCohesionChecked (sqrt : F → F) (m : UFlockingManager F) (self : Nat)
    (agent : AAgent F) : Option (FVector F) :=
  cohFinishChecked sqrt m agent
    (m.Agents.enum.foldl (cohStep sqrt m self agent) (ZeroVector, 0))

/-- The loop body of `Flock`, divisions checked. -/
def newVelocityChecked (sqrt : F → F) (m : UFlockingManager F) (DeltaTime : F) (self : Nat)
    (agent : AAgent F) : Option (FVector F) :=
  (RuleSeparationChecked sqrt m self agent).bind (fun sep =>
    (RuleAlignmentChecked sqrt m self agent).bind (fun ali =>
      (RuleCohesionChecked sqrt m self agent).bind (fun coh =>
        LimitVectorChecked sqrt
          (add agent.Velocity
            ((add (add (sep.scale m.seperationWeight) (ali.scale m.alignmentWeight))
              (coh.scale m.cohesionWeight)).scale DeltaTime))
          m.MaxSpeed)))

/-- One iteration of the loop of `Flock`, divisions checked. -/
def flockStepChecked (sqrt : F → F) (DeltaTime : F) (m : Option (UFlockingManager F))
    (i : Nat) : Option (UFlockingManager F) :=
  m.bind (fun m =>
    match m.Agents[i]? with
    | none => some m
    | some agent =>
      (newVelocityChecked sqrt m DeltaTime i agent).map (fun v =>
        { m with Agents := m.Agents.set i { agent with Velocity := v } }))

/-- `Flock(DeltaTime)`, divisions checked: `none` if any division met a zero divisor. -/
def FlockChecked (sqrt : F → F) (m : UFlockingManager F) (DeltaTime : F) :
    Option (UFlockingManager F) :=
  if !m.initialized then some m
  else (List.range m.Agents.length).foldl (flockStepChecked sqrt DeltaTime) (some m)

/-! ## Square root and vector lemmas -/

theorem IsSqrt.mul_self {sqrt : F → F} (hs : IsSqrt sqrt) {x : F} (hx : 0 ≤ x) :
    sqrt x * sqrt x = x :=
  (hs x hx).2

theorem IsSqrt.sqrt_mul_self {sqrt : F → F} (hs : IsSqrt sqrt) {y : F} (hy : 0 ≤ y) :
    sqrt (y * y) = y := by
  have h := hs (y * y) (mul_self_nonneg y)
  exact (mul_self_inj h.1 hy).1 h.2

theorem small_number_pos : (0 : F) < (SMALL_NUMBER : F) := by
  unfold SMALL_NUMBER
  positivity

theorem flockStep_getElem?_ne (sqrt : F → F) (dt : F) (m : UFlockingManager F) {i j : Nat}
    (h : j ≠ i) : (flockStep sqrt dt m i).Agents[j]? = m.Agents[j]? := by
  unfold flockStep
  cases hi : m.Agents[i]? with
  | none => rfl
  | some a => simp [List.getElem?_set_ne (Ne.symm h)]

theorem flockStep_getElem?_self (sqrt : F → F) (dt : F) (m : UFlockingManager F) {i : Nat}
    {a : AAgent F} (h : m.Agents[i]? = some a) :
    (flockStep sqrt dt m i).Agents[i]? = some ⟨a.Location, newVelocity sqrt m dt i a⟩ := by
  unfold flockStep
  rw [h]
  have hi : i < m.Agents.length := by
    rcases List.getElem?_eq_some_iff.1 h with ⟨hlt, _⟩
    exact hlt
  simp [List.getElem?_set_self, hi]

theorem flockStep_length (sqrt : F → F) (dt : F) (m : UFlockingManager F) (i : Nat) :
    (flockStep sqrt dt m i).Agents.length = m.Agents.length := by
  unfold flockStep
  cases m.Agents[i]? <;> simp

theorem flockLoop_zero (sqrt : F → F) (dt : F) (m : UFlockingManager F) :
    flockLoop sqrt dt m 0 = m := rfl

theorem flockLoop_succ (sqrt : F → F) (dt : F) (m : UFlockingManager F) (k : Nat) :
    flockLoop sqrt dt m (k + 1) = flockStep sqrt dt (flockLoop sqrt dt m k) k := by
  unfold flockLoop
  rw [List.range_succ, List.foldl_append]
  rfl

theorem SameConfig.eq {m m2 : UFlockingManager F} (h : SameConfig m m2) :
    m2 = { m with Agents := m2.Agents } := by
  obtain ⟨h1, h2, h3, h4, h5, h6, h7, h8, h9⟩ := h
  cases m2
  simp only [UFlockingManager.mk.injEq] at *
  exact ⟨h1, h2, h3, h4, h5, h6, h7, h8, h9, trivial⟩

theorem flockStep_sameConfig (sqrt : F → F) (dt : F) (m : UFlockingManager F) (i : Nat) :
    SameConfig m (flockStep sqrt dt m i) := by
  unfold flockStep SameConfig
  cases m.Agents[i]? <;> simp

theorem flockLoop_sameConfig (sqrt : F → F) (dt : F) (m : UFlockingManager F) (k : Nat) :
    SameConfig m (flockLoop sqrt dt m k) := by
  induction k with
  | zero => simp [flockLoop_zero, SameConfig]
  | succ k ih =>
    rw [flockLoop_succ]
    have h := flockStep_sameConfig sqrt dt (flockLoop sqrt dt m k) k
    unfold SameConfig at *
    obtain ⟨a1, a2, a3, a4, a5, a6, a7, a8, a9⟩ := ih
    obtain ⟨b1, b2, b3, b4, b5, b6, b7, b8, b9⟩ := h
    exact ⟨b1.trans a1, b2.trans a2, b3.trans a3, b4.trans a4, b5.trans a5, b6.trans a6,
      b7.trans a7, b8.trans a8, b9.trans a9⟩

theorem flockLoop_eq (sqrt : F → F) (dt : F) (m : UFlockingManager F) (k : Nat) :
    flockLoop sqrt dt m k = { m with Agents := (flockLoop sqrt dt m k).Agents } :=
  (flockLoop_sameConfig sqrt dt m k).eq

theorem flockLoop_length (sqrt : F → F) (dt : F) (m : UFlockingManager F) (k : Nat) :
    (flockLoop sqrt dt m k).Agents.length = m.Agents.length := by
  induction k with
  | zero => rfl
  | succ k ih => rw [flockLoop_succ, flockStep_length, ih]

/-- Agents at or after the loop position still hold their pre-step state. -/
theorem flockLoop_getElem?_ge (sqrt : F → F) (dt : F) (m : UFlockingManager F) {k j : Nat}
    (h : k ≤ j) : (flockLoop sqrt dt m k).Agents[j]? = m.Agents[j]? := by
  induction k with
  | zero => rfl
  | succ k ih =>
    rw [flockLoop_succ, flockStep_getElem?_ne sqrt dt _ (by omega), ih (by omega)]

/-- An agent already passed by the loop is not written again. -/
theorem flockLoop_getElem?_lt (sqrt : F → F) (dt : F) (m : UFlockingManager F) {k j : Nat}
    (h : j < k) :
    (flockLoop sqrt dt m k).Agents[j]? = (flockLoop sqrt dt m (j + 1)).Agents[j]? := by
  induction k with
  | zero => omega
  | succ k ih =>
    by_cases hjk : j = k
    · rw [hjk]
    · rw [flockLoop_succ, flockStep_getElem?_ne sqrt dt _ hjk, ih (by omega)]

/-- The value the loop writes for agent `j`. -/
theorem flockLoop_getElem?_written (sqrt : F → F) (dt : F) (m : UFlockingManager F) {k j : Nat}
    (h : j < k) {a : AAgent F} (ha : m.Agents[j]? = some a) :
    (flockLoop sqrt dt m k).Agents[j]?
      = some ⟨a.Location, newVelocity sqrt (flockLoop sqrt dt m j) dt j a⟩ := by
  rw [flockLoop_getElem?_lt sqrt dt m h, flockLoop_succ]
  apply flockStep_getElem?_self
  rw [flockLoop_getElem?_ge sqrt dt m (le_refl j)]
  exact ha

theorem flockLoop_map_location (sqrt : F → F) (dt : F) (m : UFlockingManager F) (k : Nat) :
    (flockLoop sqrt dt m k).Agents.map (fun a => a.Location)
      = m.Agents.map (fun a => a.Location) := by
  apply List.ext_getElem?
  intro j
  simp only [List.getElem?_map]
  by_cases h : j < k
  · cases ha : m.Agents[j]? with
    | none =>
      have hlen : m.Agents.length ≤ j := List.getElem?_eq_none_iff.1 ha
      have : (flockLoop sqrt dt m k).Agents[j]? = none := by
        apply List.getElem?_eq_none_iff.2
        rw [flockLoop_length]
        exact hlen
      rw [this]
    | some a =>
      rw [flockLoop_getElem?_written sqrt dt m h ha]
      rfl
  · rw [flockLoop_getElem?_ge sqrt dt m (not_lt.1 h)]

/-! ## The real numbers with `Real.sqrt` are an instance -/

theorem isSqrt_real : IsSqrt Real.sqrt :=
  fun x hx => ⟨Real.sqrt_nonneg x, Real.mul_self_sqrt hx⟩

/-! ## Uninitialised manager and frame of a step -/

/-- C9 (uninitialised no-op): when `initialized` is false, `Flock(DeltaTime)` returns
the manager unchanged (every field, every agent's location and velocity), for every
`DeltaTime`. -/
theorem flock_uninitialized (sqrt : F → F) (m : UFlockingManager F) (dt : F)
    (h : m.initialized = false) : Flock sqrt m dt = m := by
  unfold Flock
  simp [h]

/-- Witness of C9: the two-agent scenario with the flag cleared. -/
theorem flock_uninitialized_witness :
    ({ (twoAgents : UFlockingManager ℚ) with initialized := false }).initialized = false ∧
    Flock Rat.sqrt { (twoAgents : UFlockingManager ℚ) with initialized := false } 1
      = { (twoAgents : UFlockingManager ℚ) with initialized := false } :=
  ⟨rfl, flock_uninitialized Rat.sqrt _ 1 rfl⟩

/-- C10 (frame of a step): `Flock(DeltaTime)` keeps the number of agents, their
order and locations, the seven tuning parameters, `World` and `initialized`; only
velocities may differ. -/
theorem flock_frame (sqrt : F → F) (m : UFlockingManager F) (dt : F) :
    (Flock sqrt m dt).Agents.length = m.Agents.length ∧
    (Flock sqrt m dt).Agents.map (fun a => a.Location) = m.Agents.map (fun a => a.Location) ∧
    (Flock sqrt m dt).NeighborRadius = m.NeighborRadius ∧
    (Flock sqrt m dt).DesiredSeparation = m.DesiredSeparation ∧
    (Flock sqrt m dt).MaxSpeed = m.MaxSpeed ∧
    (Flock sqrt m dt).MaxForce = m.MaxForce ∧
    (Flock sqrt m dt).seperationWeight = m.seperationWeight ∧
    (Flock sqrt m dt).alignmentWeight = m.alignmentWeight ∧
    (Flock sqrt m dt).cohesionWeight = m.cohesionWeight ∧
    (Flock sqrt m dt).World = m.World ∧
    (Flock sqrt m dt).initialized = m.initialized := by
  unfold Flock
  split
  · simp
  · exact ⟨flockLoop_length sqrt dt m _, flockLoop_map_location sqrt dt m _,
      flockLoop_sameConfig sqrt dt m _⟩

/-! ## Self-exclusion -/

/-- A scan that skips index `self` is the scan of the list with that entry erased. -/
theorem foldl_skip_enumFrom {α β : Type} (f : β → α → β) (self : Nat) :
    ∀ (l : List α) (k : Nat) (init : β),
      (l.enumFrom k).foldl (fun acc p => if p.1 = self then acc else f acc p.2) init
        = if k ≤ self then (l.eraseIdx (self - k)).foldl f init else l.foldl f init := by
  intro l
  induction l with
  | nil => intro k init; simp
  | cons a l ih =>
    intro k init
    rw [List.enumFrom_cons, List.foldl_cons, ih]
    rcases Nat.lt_trichotomy k self with h | h | h
    · have e : self - k = (self - (k + 1)) + 1 := by omega
      have h1 : ¬ k = self := by omega
      have h2 : k + 1 ≤ self := by omega
      have h3 : k ≤ self := by omega
      simp only [h1, h2, h3, if_true, if_false]
      rw [e, List.eraseIdx_cons_succ, List.foldl_cons]
    · subst h
      simp
    · have h1 : ¬ k = self := by omega
      have h2 : ¬ k + 1 ≤ self := by omega
      have h3 : ¬ k ≤ self := by omega
      simp only [h1, h2, h3, if_false, List.foldl_cons]

theorem foldl_skip_enum {α β : Type} (f : β → α → β) (self : Nat) (l : List α) (init : β) :
    l.enum.foldl (fun acc p => if p.1 = self then acc else f acc p.2) init
      = (l.eraseIdx self).foldl f init := by
  have h := foldl_skip_enumFrom f self l 0 init
  simpa [List.enum] using h

/-- C8 (self-exclusion): for every population, agent and radius values, each rule's
output for the agent at index `self` equals the rule computed over the population
with that entry removed from the scanned list (a scan with no self test): the agent
is never counted and never contributes its own location or velocity. -/
theorem rules_self_exclusion (sqrt : F → F) (m : UFlockingManager F) (self : Nat)
    (agent : AAgent F) :
    RuleSeparation sqrt m self agent = SeparationOver sqrt m (m.Agents.eraseIdx self) agent ∧
    RuleAlignment sqrt m self agent = AlignmentOver sqrt m (m.Agents.eraseIdx self) agent ∧
    RuleCohesion sqrt m self agent = CohesionOver sqrt m (m.Agents.eraseIdx self) agent := by
  refine ⟨?_, ?_, ?_⟩
  · unfold RuleSeparation SeparationOver
    rw [← foldl_skip_enum (sepAccum sqrt m agent) self]
    rfl
  · unfold RuleAlignment AlignmentOver
    rw [← foldl_skip_enum (aliAccum sqrt m agent) self]
    rfl
  · unfold RuleCohesion CohesionOver
    rw [← foldl_skip_enum (cohAccum sqrt m agent) self]
    rfl

/-! ## Isolated agents -/

theorem getSafeNormal_zero (sqrt : F → F) :
    GetSafeNormal sqrt (ZeroVector : FVector F) = ZeroVector := by
  have h := small_number_pos (F := F)
  simp [GetSafeNormal, ZeroVector, h]

theorem limitVector_zero (sqrt : F → F) (max : F) :
    LimitVector sqrt (ZeroVector : FVector F) max = ZeroVector := by
  unfold LimitVector
  split
  · rw [getSafeNormal_zero]
    simp [scale, ZeroVector]
  · rfl

theorem foldl_eq_init_of_forall {α β : Type} (f : β → α → β) (l : List α) (init : β)
    (h : ∀ x ∈ l, f init x = init) : l.foldl f init = init := by
  induction l with
  | nil => rfl
  | cons a l ih =>
    rw [List.foldl_cons, h a (List.mem_cons_self a l)]
    exact ih (fun x hx => h x (List.mem_cons_of_mem a hx))

/-- When every other agent is at distance at least `NeighborRadius` and at least
`DesiredSeparation`, the three rules return the zero vector. -/
theorem rules_zero_of_isolated (sqrt : F → F) (m : UFlockingManager F) (i : Nat) (a : AAgent F)
    (hiso : ∀ j b, j ≠ i → m.Agents[j]? = some b →
      m.NeighborRadius ≤ Dist sqrt a.Location b.Location ∧
      m.DesiredSeparation ≤ Dist sqrt a.Location b.Location) :
    RuleSeparation sqrt m i a = ZeroVector ∧ RuleAlignment sqrt m i a = ZeroVector ∧
    RuleCohesion sqrt m i a = ZeroVector := by
  refine ⟨?_, ?_, ?_⟩
  · unfold RuleSeparation
    rw [foldl_eq_init_of_forall]
    · simp [sepFinish, limitVector_zero]
    · intro p hp
      unfold sepStep
      by_cases hpi : p.1 = i
      · rw [if_pos hpi]
      · rw [if_neg hpi]
        have hd := (hiso p.1 p.2 hpi (List.mem_enum_iff_getElem?.1 hp)).2
        unfold sepAccum
        simp only []
        rw [if_neg]
        intro hc
        exact absurd hc.1 (not_lt.2 hd)
  · unfold RuleAlignment
    rw [foldl_eq_init_of_forall]
    · simp [aliFinish]
    · intro p hp
      unfold aliStep
      by_cases hpi : p.1 = i
      · rw [if_pos hpi]
      · rw [if_neg hpi]
        have hd := (hiso p.1 p.2 hpi (List.mem_enum_iff_getElem?.1 hp)).1
        unfold aliAccum
        simp only []
        rw [if_neg (not_lt.2 hd)]
  · unfold RuleCohesion
    rw [foldl_eq_init_of_forall]
    · simp [cohFinish]
    · intro p hp
      unfold cohStep
      by_cases hpi : p.1 = i
      · rw [if_pos hpi]
      · rw [if_neg hpi]
        have hd := (hiso p.1 p.2 hpi (List.mem_enum_iff_getElem?.1 hp)).1
        unfold cohAccum
        simp only []
        rw [if_neg (not_lt.2 hd)]

/-- With the three rules at zero, the loop body only limits the old velocity. -/
theorem newVelocity_of_rules_zero (sqrt : F → F) (m : UFlockingManager F) (dt : F) (i : Nat)
    (a : AAgent F) (h : RuleSeparation sqrt m i a = ZeroVector ∧
      RuleAlignment sqrt m i a = ZeroVector ∧ RuleCohesion sqrt m i a = ZeroVector) :
    newVelocity sqrt m dt i a = LimitVector sqrt a.Velocity m.MaxSpeed := by
  unfold newVelocity
  simp only [h.1, h.2.1, h.2.2]
  congr 1
  ext <;> simp [add, scale, ZeroVector]

/-- C6 (single agent): a population of exactly one agent with velocity `(0,0,0)`
keeps velocity `(0,0,0)` under `Flock(DeltaTime)`, for all parameter values
(non-positive ones included), every `DeltaTime` and whether or not initialised. -/
theorem flock_single_agent (sqrt : F → F) (m : UFlockingManager F) (dt : F) (a : AAgent F)
    (hA : m.Agents = [a]) (hv : a.Velocity = ZeroVector) :
    (Flock sqrt m dt).Agents.map (fun x => x.Velocity) = [ZeroVector] := by
  unfold Flock
  split
  · simp [hA, hv]
  · have hz := rules_zero_of_isolated sqrt m 0 a (by
      intro j b hj hb
      rw [hA] at hb
      rcases j with _ | j
      · exact absurd rfl hj
      · simp at hb)
    have hnv := newVelocity_of_rules_zero sqrt m dt 0 a hz
    rw [hv, limitVector_zero] at hnv
    simp [hA, flockLoop, flockStep, List.range_succ, hnv]

/-- Witness of C6: one agent at rest under a manager with negative limits. -/
theorem flock_single_agent_witness :
    (Flock Rat.sqrt (loneAgent : UFlockingManager ℚ) (-3)).Agents.map (fun x => x.Velocity)
      = [ZeroVector] :=
  flock_single_agent Rat.sqrt loneAgent (-3) ⟨⟨1, 2, 3⟩, ZeroVector⟩ rfl rfl

/-! ## Separation symmetry -/

theorem dist_comm (sqrt : F → F) (p q : FVector F) :
    FVector.Dist sqrt p q = FVector.Dist sqrt q p := by
  unfold FVector.Dist FVector.DistSquared
  congr 1
  ring

theorem sumsq_neg (v : FVector F) :
    (neg v).X * (neg v).X + (neg v).Y * (neg v).Y + (neg v).Z * (neg v).Z
      = v.X * v.X + v.Y * v.Y + v.Z * v.Z := by
  simp [neg]

theorem size_neg (sqrt : F → F) (v : FVector F) : Size sqrt (neg v) = Size sqrt v := by
  unfold Size
  rw [sumsq_neg]

theorem getSafeNormal_neg (sqrt : F → F) (v : FVector F) :
    GetSafeNormal sqrt (neg v) = neg (GetSafeNormal sqrt v) := by
  unfold GetSafeNormal
  simp only [sumsq_neg]
  split
  · rfl
  · split
    · simp [neg, ZeroVector]
    · simp [neg]

theorem normalize_neg (sqrt : F → F) (v : FVector F) :
    Normalize sqrt (neg v) = neg (Normalize sqrt v) := by
  unfold Normalize
  simp only [sumsq_neg]
  split
  · simp [neg]
  · rfl

theorem scale_neg (v : FVector F) (c : F) : scale (neg v) c = neg (scale v c) := by
  simp [scale, neg]

theorem divScalar_neg (v : FVector F) (c : F) : divScalar (neg v) c = neg (divScalar v c) := by
  simp [divScalar, neg]

theorem limitVector_neg (sqrt : F → F) (v : FVector F) (max : F) :
    LimitVector sqrt (neg v) max = neg (LimitVector sqrt v max) := by
  unfold LimitVector
  rw [size_neg, getSafeNormal_neg, scale_neg]
  split <;> rfl

theorem sub_swap (p q : FVector F) : sub q p = neg (sub p q) := by
  simp [sub, neg]

theorem add_zero_neg (v : FVector F) : add ZeroVector (neg v) = neg (add ZeroVector v) := by
  simp [add, neg, ZeroVector]

theorem neg_zeroVector : neg (ZeroVector : FVector F) = ZeroVector := by
  simp [neg, ZeroVector]

/-- The separation scan of a two-agent population, seen from either agent. -/
theorem sepAccum_swap (sqrt : F → F) (m : UFlockingManager F) (A B : AAgent F) :
    sepAccum sqrt m B (ZeroVector, 0) A
      = (neg (sepAccum sqrt m A (ZeroVector, 0) B).1, (sepAccum sqrt m A (ZeroVector, 0) B).2) := by
  unfold sepAccum
  simp only []
  rw [dist_comm sqrt B.Location A.Location, sub_swap A.Location B.Location, normalize_neg,
    divScalar_neg, add_zero_neg]
  split
  · rfl
  · simp [neg_zeroVector]

theorem sepFinish_neg (sqrt : F → F) (m : UFlockingManager F) (v : FVector F) (n : Nat) :
    sepFinish sqrt m (neg v, n) = neg (sepFinish sqrt m (v, n)) := by
  unfold sepFinish
  simp only []
  split
  · rw [divScalar_neg, limitVector_neg]
  · rw [limitVector_neg]

/-- C7 (separation symmetry): in a population of exactly two agents `A`, `B` at
mutual distance below `DesiredSeparation`, for every `MaxForce`,
`RuleSeparation(A) = -RuleSeparation(B)`. -/
theorem separation_symmetry (sqrt : F → F) (m : UFlockingManager F) (A B : AAgent F)
    (hAg : m.Agents = [A, B])
    (_hd : FVector.Dist sqrt A.Location B.Location < m.DesiredSeparation) :
    RuleSeparation sqrt m 0 A = neg (RuleSeparation sqrt m 1 B) := by
  have hA : RuleSeparation sqrt m 0 A = sepFinish sqrt m (sepAccum sqrt m A (ZeroVector, 0) B) := by
    simp [RuleSeparation, hAg, List.enum, sepStep]
  have hB : RuleSeparation sqrt m 1 B = sepFinish sqrt m (sepAccum sqrt m B (ZeroVector, 0) A) := by
    simp [RuleSeparation, hAg, List.enum, sepStep]
  rw [hA, hB, sepAccum_swap sqrt m B A, sepFinish_neg]

/-- Witness of C7: the two-agent scenario over the reals (distance 10, below 80);
both sides are the vector `(-1/10, 0, 0)`. -/
theorem separation_symmetry_witness :
    FVector.Dist Real.sqrt (⟨0, 0, 0⟩ : FVector ℝ) ⟨10, 0, 0⟩
      < (twoAgents : UFlockingManager ℝ).DesiredSeparation ∧
    RuleSeparation Real.sqrt (twoAgents : UFlockingManager ℝ) 0 ⟨⟨0, 0, 0⟩, ZeroVector⟩
      = neg (RuleSeparation Real.sqrt (twoAgents : UFlockingManager ℝ) 1
          ⟨⟨10, 0, 0⟩, ZeroVector⟩) :=
  have h10 : Real.sqrt ((10 : ℝ) * 10) = 10 := isSqrt_real.sqrt_mul_self (by norm_num)
  have hd : FVector.Dist Real.sqrt (⟨0, 0, 0⟩ : FVector ℝ) ⟨10, 0, 0⟩
      < (twoAgents : UFlockingManager ℝ).DesiredSeparation := by
    simp [twoAgents, FVector.Dist, FVector.DistSquared, h10]
    norm_num
  ⟨hd, separation_symmetry Real.sqrt twoAgents ⟨⟨0, 0, 0⟩, ZeroVector⟩ ⟨⟨10, 0, 0⟩, ZeroVector⟩
    rfl hd⟩

/-! ## Vectors on the X axis and the two-agent scenario -/

theorem size_axis {sqrt : F → F} (hs : IsSqrt sqrt) (x : F) :
    Size sqrt (⟨x, 0, 0⟩ : FVector F) = |x| := by
  unfold Size
  have h : x * x + 0 * 0 + 0 * 0 = |x| * |x| := by rw [abs_mul_abs_self]; ring
  simp only []
  rw [h]
  exact hs.sqrt_mul_self (abs_nonneg x)

theorem dist_axis {sqrt : F → F} (hs : IsSqrt sqrt) (x y : F) :
    FVector.Dist sqrt (⟨x, 0, 0⟩ : FVector F) ⟨y, 0, 0⟩ = |y - x| := by
  unfold FVector.Dist FVector.DistSquared
  have h : (y - x) * (y - x) + (0 - 0) * (0 - 0) + (0 - 0) * (0 - 0) = |y - x| * |y - x| := by
    rw [abs_mul_abs_self]; ring
  simp only []
  rw [h]
  exact hs.sqrt_mul_self (abs_nonneg _)

theorem getSafeNormal_axis {sqrt : F → F} (hs : IsSqrt sqrt) (x : F)
    (hx : (SMALL_NUMBER : F) ≤ x * x) :
    GetSafeNormal sqrt (⟨x, 0, 0⟩ : FVector F) = ⟨x / |x|, 0, 0⟩ := by
  have h : x * x + 0 * 0 + 0 * 0 = |x| * |x| := by rw [abs_mul_abs_self]; ring
  have hxx : 0 < x * x := lt_of_lt_of_le small_number_pos hx
  have hx0 : x ≠ 0 := by
    intro h0
    rw [h0] at hxx
    simp at hxx
  have habs : 0 < |x| := abs_pos.2 hx0
  unfold GetSafeNormal
  simp only []
  rw [h, hs.sqrt_mul_self (abs_nonneg x)]
  split
  · next h1 =>
    have : |x| = 1 := by
      have h2 : |x| * |x| = 1 * 1 := by rw [h1]; ring
      exact (mul_self_inj (abs_nonneg x) zero_le_one).1 h2
    rw [this]
    simp
  · rw [if_neg]
    · ext <;> simp [div_eq_mul_inv]
    · rw [abs_mul_abs_self]
      exact not_lt.2 hx

theorem normalize_axis {sqrt : F → F} (hs : IsSqrt sqrt) (x : F)
    (hx : (SMALL_NUMBER : F) < x * x) :
    Normalize sqrt (⟨x, 0, 0⟩ : FVector F) = ⟨x / |x|, 0, 0⟩ := by
  have h : x * x + 0 * 0 + 0 * 0 = |x| * |x| := by rw [abs_mul_abs_self]; ring
  unfold Normalize
  simp only []
  rw [h, hs.sqrt_mul_self (abs_nonneg x), if_pos]
  · ext <;> simp [div_eq_mul_inv]
  · rw [abs_mul_abs_self]
    exact hx

theorem getSafeNormal_origin (sqrt : F → F) :
    GetSafeNormal sqrt (⟨0, 0, 0⟩ : FVector F) = ⟨0, 0, 0⟩ :=
  getSafeNormal_zero sqrt

/-- The first agent of the scenario, on the pre-step state. -/
theorem twoAgents_first {sqrt : F → F} (hs : IsSqrt sqrt) :
    newVelocity sqrt (twoAgents : UFlockingManager F) 1 0 ⟨⟨0, 0, 0⟩, ZeroVector⟩
      = ⟨7 / 20, 0, 0⟩ := by
  norm_num [newVelocity, RuleSeparation, RuleAlignment, RuleCohesion, twoAgents, List.enum,
    sepStep, aliStep, cohStep, sepAccum, aliAccum, cohAccum, sepFinish, aliFinish, cohFinish,
    ZeroVector, dist_axis hs, FVector.add, FVector.sub, FVector.scale, FVector.divScalar,
    normalize_axis hs, getSafeNormal_axis hs, LimitVector, size_axis hs, SMALL_NUMBER,
    getSafeNormal_origin, abs_div, abs_neg, Nat.abs_ofNat, abs_one]

/-- The second agent of the scenario, on the state the loop has reached. -/
theorem twoAgents_second {sqrt : F → F} (hs : IsSqrt sqrt) :
    newVelocity sqrt { (twoAgents : UFlockingManager F) with
        Agents := [⟨⟨0, 0, 0⟩, ⟨7 / 20, 0, 0⟩⟩, ⟨⟨10, 0, 0⟩, ZeroVector⟩] } 1 1
      ⟨⟨10, 0, 0⟩, ZeroVector⟩ = ⟨3 / 20, 0, 0⟩ := by
  norm_num [newVelocity, RuleSeparation, RuleAlignment, RuleCohesion, twoAgents, List.enum,
    sepStep, aliStep, cohStep, sepAccum, aliAccum, cohAccum, sepFinish, aliFinish, cohFinish,
    ZeroVector, dist_axis hs, FVector.add, FVector.sub, FVector.scale, FVector.divScalar,
    normalize_axis hs, getSafeNormal_axis hs, LimitVector, size_axis hs, SMALL_NUMBER,
    getSafeNormal_origin, abs_div, abs_neg, Nat.abs_ofNat, abs_one]

/-- The second agent of the scenario, on the pre-step state (two-pass reference). -/
theorem twoAgents_second_snapshot {sqrt : F → F} (hs : IsSqrt sqrt) :
    newVelocity sqrt (twoAgents : UFlockingManager F) 1 1
      ⟨⟨10, 0, 0⟩, ZeroVector⟩ = ⟨-(7 / 20), 0, 0⟩ := by
  norm_num [newVelocity, RuleSeparation, RuleAlignment, RuleCohesion, twoAgents, List.enum,
    sepStep, aliStep, cohStep, sepAccum, aliAccum, cohAccum, sepFinish, aliFinish, cohFinish,
    ZeroVector, dist_axis hs, FVector.add, FVector.sub, FVector.scale, FVector.divScalar,
    normalize_axis hs, getSafeNormal_axis hs, LimitVector, size_axis hs, SMALL_NUMBER,
    getSafeNormal_origin, abs_div, abs_neg, Nat.abs_ofNat, abs_one]

/-- The agents after `Flock(1)` on the scenario: both X components are positive. -/
theorem twoAgents_flock {sqrt : F → F} (hs : IsSqrt sqrt) :
    (Flock sqrt (twoAgents : UFlockingManager F) 1).Agents
      = [⟨⟨0, 0, 0⟩, ⟨7 / 20, 0, 0⟩⟩, ⟨⟨10, 0, 0⟩, ⟨3 / 20, 0, 0⟩⟩] := by
  have e1 : flockStep sqrt 1 (twoAgents : UFlockingManager F) 0
      = { (twoAgents : UFlockingManager F) with
          Agents := [⟨⟨0, 0, 0⟩, ⟨7 / 20, 0, 0⟩⟩, ⟨⟨10, 0, 0⟩, ZeroVector⟩] } := by
    unfold flockStep
    have hA : (twoAgents : UFlockingManager F).Agents[0]? = some ⟨⟨0, 0, 0⟩, ZeroVector⟩ := rfl
    rw [hA]
    simp only []
    rw [twoAgents_first hs]
    rfl
  have e2 : flockStep sqrt 1 { (twoAgents : UFlockingManager F) with
          Agents := [⟨⟨0, 0, 0⟩, ⟨7 / 20, 0, 0⟩⟩, ⟨⟨10, 0, 0⟩, ZeroVector⟩] } 1
      = { (twoAgents : UFlockingManager F) with
          Agents := [⟨⟨0, 0, 0⟩, ⟨7 / 20, 0, 0⟩⟩, ⟨⟨10, 0, 0⟩, ⟨3 / 20, 0, 0⟩⟩] } := by
    unfold flockStep
    have hB : ({ (twoAgents : UFlockingManager F) with
          Agents := [⟨⟨0, 0, 0⟩, ⟨7 / 20, 0, 0⟩⟩, ⟨⟨10, 0, 0⟩, ZeroVector⟩] }).Agents[1]?
        = some ⟨⟨10, 0, 0⟩, ZeroVector⟩ := rfl
    rw [hB]
    simp only []
    rw [twoAgents_second hs]
    rfl
  have e : Flock sqrt (twoAgents : UFlockingManager F) 1
      = flockStep sqrt 1 (flockStep sqrt 1 (twoAgents : UFlockingManager F) 0) 1 := rfl
  rw [e, e1, e2]

/-- The agents after the two-pass reference step on the scenario: opposite signs. -/
theorem twoAgents_flockTwoPass {sqrt : F → F} (hs : IsSqrt sqrt) :
    (FlockTwoPass sqrt (twoAgents : UFlockingManager F) 1).Agents
      = [⟨⟨0, 0, 0⟩, ⟨7 / 20, 0, 0⟩⟩, ⟨⟨10, 0, 0⟩, ⟨-(7 / 20), 0, 0⟩⟩] := by
  have e : (FlockTwoPass sqrt (twoAgents : UFlockingManager F) 1).Agents
      = [⟨⟨0, 0, 0⟩, newVelocity sqrt (twoAgents : UFlockingManager F) 1 0
            ⟨⟨0, 0, 0⟩, ZeroVector⟩⟩,
         ⟨⟨10, 0, 0⟩, newVelocity sqrt (twoAgents : UFlockingManager F) 1 1
            ⟨⟨10, 0, 0⟩, ZeroVector⟩⟩] := rfl
  rw [e, twoAgents_first hs, twoAgents_second_snapshot hs]

/-! ## In-place update against the two-pass reference -/

/-- The state the loop has reached before iteration `i`: results for the agents
before `i`, pre-step agents from `i` on. -/
theorem flockLoop_agents_split (sqrt : F → F) (dt : F) (m : UFlockingManager F) {i k : Nat}
    (hik : i ≤ k) (hi : i ≤ m.Agents.length) :
    (flockLoop sqrt dt m i).Agents
      = (flockLoop sqrt dt m k).Agents.take i ++ m.Agents.drop i := by
  have hlen : ((flockLoop sqrt dt m k).Agents.take i).length = i := by
    rw [List.length_take, flockLoop_length]
    exact Nat.min_eq_left hi
  apply List.ext_getElem?
  intro j
  by_cases hj : j < i
  · rw [List.getElem?_append_left (by rw [hlen]; exact hj), List.getElem?_take_of_lt hj,
      flockLoop_getElem?_lt sqrt dt m hj, flockLoop_getElem?_lt sqrt dt m (lt_of_lt_of_le hj hik)]
  · have hji : i ≤ j := not_lt.1 hj
    rw [List.getElem?_append_right (by rw [hlen]; exact hji), hlen, List.getElem?_drop,
      flockLoop_getElem?_ge sqrt dt m hji]
    congr 1
    omega

/-- C2, counterexample: on the two-agent scenario (over the reals) the in-place
`Flock(1)` differs from the two-pass reference: the second agent gets X velocity
`3/20` in place and `-7/20` from the snapshot. -/
theorem flock_ne_flockTwoPass :
    Flock Real.sqrt (twoAgents : UFlockingManager ℝ) 1
      ≠ FlockTwoPass Real.sqrt (twoAgents : UFlockingManager ℝ) 1 := by
  intro h
  have h2 := congrArg (fun s => s.Agents) h
  simp only [twoAgents_flock isSqrt_real, twoAgents_flockTwoPass isSqrt_real] at h2
  norm_num at h2

/-- C2, as amended: on an initialised manager, `Flock(DeltaTime)` gives the agent at
index `i` the velocity `LimitVector(v + (sep*w_s + ali*w_a + coh*w_c)*DeltaTime, MaxSpeed)`
where the three rules are computed on the state in which the agents before `i` in
enumeration order already carry their post-step velocities and the agents from `i`
on still carry their pre-step ones (in-place, sequential update). -/
theorem flock_sequential (sqrt : F → F) (m : UFlockingManager F) (dt : F)
    (hinit : m.initialized = true) (i : Nat) (a : AAgent F) (ha : m.Agents[i]? = some a) :
    (Flock sqrt m dt).Agents[i]? = some ⟨a.Location,
      LimitVector sqrt
        (add a.Velocity (scale (add (add
          (scale (RuleSeparation sqrt
            { m with Agents := (Flock sqrt m dt).Agents.take i ++ m.Agents.drop i } i a)
            m.seperationWeight)
          (scale (RuleAlignment sqrt
            { m with Agents := (Flock sqrt m dt).Agents.take i ++ m.Agents.drop i } i a)
            m.alignmentWeight))
          (scale (RuleCohesion sqrt
            { m with Agents := (Flock sqrt m dt).Agents.take i ++ m.Agents.drop i } i a)
            m.cohesionWeight)) dt))
        m.MaxSpeed⟩ := by
  have hi : i < m.Agents.length := by
    rcases List.getElem?_eq_some_iff.1 ha with ⟨hlt, _⟩
    exact hlt
  have hF : Flock sqrt m dt = flockLoop sqrt dt m m.Agents.length := by
    unfold Flock
    simp [hinit]
  rw [hF, flockLoop_getElem?_written sqrt dt m hi ha,
    ← flockLoop_agents_split sqrt dt m hi.le hi.le, ← flockLoop_eq]
  have hcfg := flockLoop_sameConfig sqrt dt m i
  unfold newVelocity
  simp only []
  rw [hcfg.2.2.1, hcfg.2.2.2.2.1, hcfg.2.2.2.2.2.1, hcfg.2.2.2.2.2.2.1]

/-- Witness of the amended C2: the second agent of the two-agent scenario. -/
theorem flock_sequential_witness :
    (Flock Rat.sqrt (twoAgents : UFlockingManager ℚ) 1).Agents[1]? = some ⟨⟨10, 0, 0⟩,
      LimitVector Rat.sqrt
        (add ZeroVector (scale (add (add
          (scale (RuleSeparation Rat.sqrt
            { (twoAgents : UFlockingManager ℚ) with
              Agents := (Flock Rat.sqrt (twoAgents : UFlockingManager ℚ) 1).Agents.take 1
                ++ (twoAgents : UFlockingManager ℚ).Agents.drop 1 } 1 ⟨⟨10, 0, 0⟩, ZeroVector⟩)
            (twoAgents : UFlockingManager ℚ).seperationWeight)
          (scale (RuleAlignment Rat.sqrt
            { (twoAgents : UFlockingManager ℚ) with
              Agents := (Flock Rat.sqrt (twoAgents : UFlockingManager ℚ) 1).Agents.take 1
                ++ (twoAgents : UFlockingManager ℚ).Agents.drop 1 } 1 ⟨⟨10, 0, 0⟩, ZeroVector⟩)
            (twoAgents : UFlockingManager ℚ).alignmentWeight))
          (scale (RuleCohesion Rat.sqrt
            { (twoAgents : UFlockingManager ℚ) with
              Agents := (Flock Rat.sqrt (twoAgents : UFlockingManager ℚ) 1).Agents.take 1
                ++ (twoAgents : UFlockingManager ℚ).Agents.drop 1 } 1 ⟨⟨10, 0, 0⟩, ZeroVector⟩)
            (twoAgents : UFlockingManager ℚ).cohesionWeight)) 1))
        (twoAgents : UFlockingManager ℚ).MaxSpeed⟩ :=
  flock_sequential Rat.sqrt twoAgents 1 rfl 1 ⟨⟨10, 0, 0⟩, ZeroVector⟩ rfl

/-- C3, counterexample: on the two-agent scenario (over the reals) the velocities
after `Flock(1)` do not have X components of opposite sign. -/
theorem twoAgents_not_opposite :
    ¬ ∃ vA vB : FVector ℝ,
      (Flock Real.sqrt (twoAgents : UFlockingManager ℝ) 1).Agents.map (fun a => a.Velocity)
        = [vA, vB] ∧
      vA.X ≠ 0 ∧ vB.X ≠ 0 ∧ vA.X * vB.X < 0 ∧
      Size Real.sqrt vA ≤ 5 ∧ Size Real.sqrt vB ≤ 5 := by
  rintro ⟨vA, vB, hmap, _, _, hopp, _, _⟩
  rw [twoAgents_flock isSqrt_real] at hmap
  simp only [List.map_cons, List.map_nil, List.cons.injEq, and_true] at hmap
  obtain ⟨hA, hB⟩ := hmap
  rw [← hA, ← hB] at hopp
  norm_num at hopp

/-- C3, as amended: on the two-agent scenario, after `Flock(1)` the velocities are
`(7/20, 0, 0)` and `(3/20, 0, 0)`: both X components are nonzero and positive (the
second agent's alignment reads the first agent's already updated velocity), and
each velocity has size at most 5. -/
theorem twoAgents_same_sign (sqrt : F → F) (hs : IsSqrt sqrt) :
    (Flock sqrt (twoAgents : UFlockingManager F) 1).Agents.map (fun a => a.Velocity)
      = [⟨7 / 20, 0, 0⟩, ⟨3 / 20, 0, 0⟩] ∧
    Size sqrt (⟨7 / 20, 0, 0⟩ : FVector F) ≤ 5 ∧ Size sqrt (⟨3 / 20, 0, 0⟩ : FVector F) ≤ 5 := by
  refine ⟨?_, ?_, ?_⟩
  · rw [twoAgents_flock hs]
    rfl
  · rw [size_axis hs]
    norm_num [abs_div, Nat.abs_ofNat]
  · rw [size_axis hs]
    norm_num [abs_div, Nat.abs_ofNat]

/-- Witness of the amended C3 over the reals with `Real.sqrt`. -/
theorem twoAgents_same_sign_witness :
    IsSqrt Real.sqrt ∧
    (Flock Real.sqrt (twoAgents : UFlockingManager ℝ) 1).Agents.map (fun a => a.Velocity)
      = [⟨7 / 20, 0, 0⟩, ⟨3 / 20, 0, 0⟩] ∧
    Size Real.sqrt (⟨7 / 20, 0, 0⟩ : FVector ℝ) ≤ 5 ∧
    Size Real.sqrt (⟨3 / 20, 0, 0⟩ : FVector ℝ) ≤ 5 :=
  ⟨isSqrt_real, twoAgents_same_sign Real.sqrt isSqrt_real⟩

/-! ## No configuration validation -/

/-- The first agent of the scenario under `DeltaTime = -1`, on the pre-step state. -/
theorem twoAgents_first_backwards {sqrt : F → F} (hs : IsSqrt sqrt) :
    newVelocity sqrt (twoAgents : UFlockingManager F) (-1) 0 ⟨⟨0, 0, 0⟩, ZeroVector⟩
      = ⟨-(7 / 20), 0, 0⟩ := by
  norm_num [newVelocity, RuleSeparation, RuleAlignment, RuleCohesion, twoAgents, List.enum,
    sepStep, aliStep, cohStep, sepAccum, aliAccum, cohAccum, sepFinish, aliFinish, cohFinish,
    ZeroVector, dist_axis hs, FVector.add, FVector.sub, FVector.scale, FVector.divScalar,
    normalize_axis hs, getSafeNormal_axis hs, LimitVector, size_axis hs, SMALL_NUMBER,
    getSafeNormal_origin, abs_div, abs_neg, Nat.abs_ofNat, abs_one]

/-- The value `Flock` writes for an agent, on an initialised manager. -/
theorem flock_getElem?_written (sqrt : F → F) (m : UFlockingManager F) (dt : F)
    (hinit : m.initialized = true) {i : Nat} {a : AAgent F} (ha : m.Agents[i]? = some a) :
    (Flock sqrt m dt).Agents[i]?
      = some ⟨a.Location, newVelocity sqrt (flockLoop sqrt dt m i) dt i a⟩ := by
  have hi : i < m.Agents.length := by
    rcases List.getElem?_eq_some_iff.1 ha with ⟨hlt, _⟩
    exact hlt
  have hF : Flock sqrt m dt = flockLoop sqrt dt m m.Agents.length := by
    unfold Flock
    simp [hinit]
  rw [hF, flockLoop_getElem?_written sqrt dt m hi ha]

/-- C11, counterexample: `Flock(-1)` on the two-agent scenario (over the reals) is
not rejected; it changes the first agent's velocity from `(0,0,0)` to `(-7/20,0,0)`. -/
theorem flock_negative_deltaTime_changes :
    (-1 : ℝ) ≤ 0 ∧
    (Flock Real.sqrt (twoAgents : UFlockingManager ℝ) (-1)).Agents.map (fun a => a.Velocity)
      ≠ (twoAgents : UFlockingManager ℝ).Agents.map (fun a => a.Velocity) := by
  refine ⟨by norm_num, ?_⟩
  intro h
  have h0 := congrArg (fun l => l[0]?) h
  have hw := flock_getElem?_written Real.sqrt (twoAgents : UFlockingManager ℝ) (-1) rfl
    (i := 0) (a := ⟨⟨0, 0, 0⟩, ZeroVector⟩) rfl
  simp only [List.getElem?_map, hw, flockLoop_zero, twoAgents_first_backwards isSqrt_real]
    at h0
  simp [twoAgents, ZeroVector] at h0

/-! ## Order-independence without alignment -/

/-- A scan whose step depends on the scanned element only through `g` gives the
same result on two lists with the same `g`-images. -/
theorem foldl_enumFrom_congr {α β γ : Type} (f : β → Nat × α → β) (g : α → γ)
    (hf : ∀ acc k a a2, g a = g a2 → f acc (k, a) = f acc (k, a2)) :
    ∀ (l l2 : List α) (k : Nat) (init : β), l.map g = l2.map g →
      (l.enumFrom k).foldl f init = (l2.enumFrom k).foldl f init := by
  intro l
  induction l with
  | nil =>
    intro l2 k init h
    cases l2 with
    | nil => rfl
    | cons b l2 => simp at h
  | cons a l ih =>
    intro l2 k init h
    cases l2 with
    | nil => simp at h
    | cons b l2 =>
      simp only [List.map_cons, List.cons.injEq] at h
      rw [List.enumFrom_cons, List.enumFrom_cons, List.foldl_cons, List.foldl_cons,
        hf init k a b h.1]
      exact ih l2 (k + 1) _ h.2

/-- `RuleSeparation` reads the other agents only through their locations. -/
theorem ruleSeparation_congr (sqrt : F → F) (m : UFlockingManager F) (L : List (AAgent F))
    (self : Nat) (agent : AAgent F)
    (hL : L.map (fun a => a.Location) = m.Agents.map (fun a => a.Location)) :
    RuleSeparation sqrt { m with Agents := L } self agent = RuleSeparation sqrt m self agent := by
  unfold RuleSeparation
  have h := foldl_enumFrom_congr (sepStep sqrt m self agent) (fun a : AAgent F => a.Location)
    (by
      intro acc k a a2 hloc
      simp only [sepStep, sepAccum]
      simp only [] at hloc
      rw [hloc])
    L m.Agents 0 (ZeroVector, 0) hL
  exact congrArg (sepFinish sqrt m) h

/-- `RuleCohesion` reads the other agents only through their locations. -/
theorem ruleCohesion_congr (sqrt : F → F) (m : UFlockingManager F) (L : List (AAgent F))
    (self : Nat) (agent : AAgent F)
    (hL : L.map (fun a => a.Location) = m.Agents.map (fun a => a.Location)) :
    RuleCohesion sqrt { m with Agents := L } self agent = RuleCohesion sqrt m self agent := by
  unfold RuleCohesion
  have h := foldl_enumFrom_congr (cohStep sqrt m self agent) (fun a : AAgent F => a.Location)
    (by
      intro acc k a a2 hloc
      simp only [cohStep, cohAccum]
      simp only [] at hloc
      rw [hloc])
    L m.Agents 0 (ZeroVector, 0) hL
  exact congrArg (cohFinish sqrt m agent) h

theorem scale_zero (v : FVector F) : scale v 0 = ZeroVector := by
  simp [scale, ZeroVector]

/-- With `alignmentWeight = 0` the loop body gives the same velocity on every state
that has the pre-step locations and parameters. -/
theorem newVelocity_no_alignment (sqrt : F → F) (m : UFlockingManager F) (L : List (AAgent F))
    (dt : F) (i : Nat) (a : AAgent F) (hali : m.alignmentWeight = 0)
    (hL : L.map (fun a => a.Location) = m.Agents.map (fun a => a.Location)) :
    newVelocity sqrt { m with Agents := L } dt i a = newVelocity sqrt m dt i a := by
  unfold newVelocity
  rw [ruleSeparation_congr sqrt m L i a hL, ruleCohesion_congr sqrt m L i a hL]
  simp only [hali, scale_zero]

/-- C18 (order-independence without alignment): with `alignmentWeight = 0` the
in-place `Flock(DeltaTime)` equals the two-pass reference that computes every new
velocity on the pre-step snapshot and then writes them all, for every population,
`DeltaTime` and other parameters (exact arithmetic). -/
theorem flock_eq_twoPass_of_no_alignment (sqrt : F → F) (m : UFlockingManager F) (dt : F)
    (hali : m.alignmentWeight = 0) : Flock sqrt m dt = FlockTwoPass sqrt m dt := by
  unfold Flock FlockTwoPass
  split
  · rfl
  · rw [flockLoop_eq]
    simp only []
    congr 1
    apply List.ext_getElem?
    intro i
    cases ha : m.Agents[i]? with
    | none =>
      have hlen : m.Agents.length ≤ i := List.getElem?_eq_none_iff.1 ha
      rw [List.getElem?_eq_none_iff.2 (by rw [flockLoop_length]; exact hlen),
        List.getElem?_eq_none_iff.2 (by simp; exact hlen)]
    | some a =>
      have hi : i < m.Agents.length := by
        rcases List.getElem?_eq_some_iff.1 ha with ⟨hlt, _⟩
        exact hlt
      rw [flockLoop_getElem?_written sqrt dt m hi ha, flockLoop_eq sqrt dt m i,
        newVelocity_no_alignment sqrt m _ dt i a hali (flockLoop_map_location sqrt dt m i)]
      simp [List.getElem?_enum, ha]

/-- Witness of C18: the two-agent scenario with the alignment weight set to zero. -/
theorem flock_eq_twoPass_of_no_alignment_witness :
    ({ (twoAgents : UFlockingManager ℚ) with alignmentWeight := 0 }).alignmentWeight = 0 ∧
    Flock Rat.sqrt { (twoAgents : UFlockingManager ℚ) with alignmentWeight := 0 } 1
      = FlockTwoPass Rat.sqrt { (twoAgents : UFlockingManager ℚ) with alignmentWeight := 0 } 1 :=
  ⟨rfl, flock_eq_twoPass_of_no_alignment Rat.sqrt _ 1 rfl⟩

/-! ## `LimitVector` and `GetSafeNormal` around the tolerance (exact arithmetic) -/

theorem normalize_of_le_small (sqrt : F → F) (v : FVector F)
    (h : SizeSquared v ≤ (SMALL_NUMBER : F)) : Normalize sqrt v = v := by
  unfold Normalize
  unfold SizeSquared at h
  simp only []
  rw [if_neg (not_lt.2 h)]

theorem initLoop_some (env : InitEnv F) (incr : F) (w : UWorld) :
    ∀ (l : List Nat) (m : UFlockingManager F), m.World = some w →
      (l.foldl (initStep env incr) m).World = some w ∧
      (l.foldl (initStep env incr) m).Agents
        = m.Agents ++ l.map (fun i => ⟨spawnLocation env incr i, env.SpawnVelocity i⟩) := by
  intro l
  induction l with
  | nil => intro m hw; simp [hw]
  | cons i l ih =>
    intro m hw
    have hstep : initStep env incr m i
        = { m with Agents := m.Agents ++ [⟨spawnLocation env incr i, env.SpawnVelocity i⟩] } := by
      unfold initStep
      rw [hw]
    rw [List.foldl_cons, hstep]
    have h := ih { m with Agents := m.Agents ++ [⟨spawnLocation env incr i, env.SpawnVelocity i⟩] } hw
    refine ⟨h.1, ?_⟩
    rw [h.2]
    simp

/-- With a non-null world, `Init` appends the 40 spawned agents in index order. -/
theorem init_agents (env : InitEnv F) (m : UFlockingManager F) (w : UWorld) :
    (Init env m (some w)).Agents
      = m.Agents ++ (List.range AGENT_COUNT).map (fun i =>
          ⟨spawnLocation env ((env.PI * 2) / (AGENT_COUNT : F)) i, env.SpawnVelocity i⟩) := by
  have h := (initLoop_some env ((env.PI * 2) / (AGENT_COUNT : F)) w (List.range AGENT_COUNT)
    { m with World := some w } rfl).2
  unfold Init
  simp only []
  rw [h]

/-- What `Init` does establish on a manager holding no agents: 40 agents, the flag
set, agent `i` offset from the ring point by exactly its X and Z draws; its Y
coordinate is the never-assigned Y of the vector default-constructed in iteration
`i` plus the Y draw. -/
theorem init_layout (env : InitEnv F) (m : UFlockingManager F) (w : UWorld)
    (hm : m.Agents = []) :
    (Init env m (some w)).Agents.length = 40 ∧ (Init env m (some w)).initialized = true ∧
    ∀ i : Nat, i < 40 → ∃ a : AAgent F, (Init env m (some w)).Agents[i]? = some a ∧
      a.Location.X - 150 * env.Sin ((i : F) * 2 * env.PI / 40) = env.RandRange (3 * i) ∧
      a.Location.Y = (env.DefaultVector i).Y + env.RandRange (3 * i + 1) ∧
      a.Location.Z - 150 * env.Cos ((i : F) * 2 * env.PI / 40) = env.RandRange (3 * i + 2) := by
  refine ⟨?_, rfl, ?_⟩
  · rw [init_agents, hm]
    simp [AGENT_COUNT]
  · intro i hi
    refine ⟨⟨spawnLocation env ((env.PI * 2) / (AGENT_COUNT : F)) i, env.SpawnVelocity i⟩, ?_, ?_⟩
    · rw [init_agents, hm]
      simp [AGENT_COUNT, List.getElem?_range, hi]
    · have harg : env.PI * 2 / ((AGENT_COUNT : Nat) : F) * (i : F) = (i : F) * 2 * env.PI / 40 := by
        simp only [AGENT_COUNT]
        push_cast
        ring
      simp only [spawnLocation, harg]
      refine ⟨by ring, trivial, by ring⟩

/-- C12, failing input evaluated: over the reals with `Real.sin`, `Real.cos` and
`Real.pi`, all jitter draws 0 and a default-constructed `FVector()` whose
never-assigned Y happens to hold 1000, `Init` on a fresh manager with a non-null
world spawns agent 0 at `(0, 1000, 150)`: its Y offset from the ring point
`(0, 0, 150)` is 1000, outside `[-50, 50]`. -/
theorem init_y_offset_unbounded :
    (∀ k : Nat, (-50 : ℝ) ≤ (fun _ => (0 : ℝ)) k ∧ (fun _ => (0 : ℝ)) k ≤ 50) ∧
    ∃ a : AAgent ℝ,
      (Init ⟨Real.pi, Real.sin, Real.cos, fun _ => ⟨0, 1000, 0⟩, fun _ => 0,
          fun _ => ZeroVector⟩
        (freshManager : UFlockingManager ℝ) (some UWorld.world)).Agents[0]? = some a ∧
      a.Location = ⟨0, 1000, 150⟩ ∧
      ¬ (-50 ≤ a.Location.Y - 0 ∧ a.Location.Y - 0 ≤ 50) := by
  refine ⟨fun _ => by norm_num, ⟨⟨0, 1000, 150⟩, ZeroVector⟩, ?_, rfl, by norm_num⟩
  rw [init_agents]
  simp [freshManager, AGENT_COUNT, List.range_succ_eq_map, spawnLocation]

/-! ## No division by zero -/

theorem sqrt_ne_zero_of_pos {sqrt : F → F} (hs : IsSqrt sqrt) {x : F} (hx : 0 < x) :
    sqrt x ≠ 0 := by
  intro h
  have hm := hs.mul_self hx.le
  rw [h] at hm
  simp at hm
  exact absurd hm.symm (ne_of_gt hx)

theorem divScalarChecked_eq (v : FVector F) {s : F} (h : s ≠ 0) :
    divScalarChecked v s = some (divScalar v s) := by
  unfold divScalarChecked
  rw [if_neg h]

theorem getSafeNormalChecked_eq {sqrt : F → F} (hs : IsSqrt sqrt) (v : FVector F) :
    GetSafeNormalChecked sqrt v = some (GetSafeNormal sqrt v) := by
  unfold GetSafeNormalChecked GetSafeNormal
  simp only []
  split
  · rfl
  · split
    · rfl
    · next h1 h2 =>
      have hpos : 0 < v.X * v.X + v.Y * v.Y + v.Z * v.Z :=
        lt_of_lt_of_le small_number_pos (not_lt.1 h2)
      rw [if_neg (sqrt_ne_zero_of_pos hs hpos)]

theorem normalizeChecked_eq {sqrt : F → F} (hs : IsSqrt sqrt) (v : FVector F) :
    NormalizeChecked sqrt v = some (Normalize sqrt v) := by
  unfold NormalizeChecked Normalize
  simp only []
  split
  · next h =>
    have hpos : 0 < v.X * v.X + v.Y * v.Y + v.Z * v.Z := lt_trans small_number_pos h
    rw [if_neg (sqrt_ne_zero_of_pos hs hpos)]
  · rfl

theorem limitVectorChecked_eq {sqrt : F → F} (hs : IsSqrt sqrt) (v : FVector F) (max : F) :
    LimitVectorChecked sqrt v max = some (LimitVector sqrt v max) := by
  unfold LimitVectorChecked LimitVector
  split
  · rw [getSafeNormalChecked_eq hs]
    rfl
  · rfl

theorem sepAccumChecked_eq {sqrt : F → F} (hs : IsSqrt sqrt) (m : UFlockingManager F)
    (agent : AAgent F) (acc : FVector F × Nat) (other : AAgent F) :
    sepAccumChecked sqrt m agent acc other = some (sepAccum sqrt m agent acc other) := by
  unfold sepAccumChecked sepAccum
  simp only []
  split
  · next h =>
    rw [normalizeChecked_eq hs, Option.some_bind, divScalarChecked_eq _ (ne_of_gt h.2)]
    rfl
  · rfl

theorem foldl_checked {α β : Type} (fc : Option β → α → Option β) (f : β → α → β)
    (h : ∀ acc x, fc (some acc) x = some (f acc x)) :
    ∀ (l : List α) (init : β), l.foldl fc (some init) = some (l.foldl f init) := by
  intro l
  induction l with
  | nil => intro init; rfl
  | cons a l ih =>
    intro init
    rw [List.foldl_cons, List.foldl_cons, h, ih]

theorem natCast_ne_zero_of_pos {n : Nat} (h : n > 0) : ((n : Nat) : F) ≠ 0 :=
  Nat.cast_ne_zero.2 (Nat.pos_iff_ne_zero.1 h)

theorem ruleSeparationChecked_eq {sqrt : F → F} (hs : IsSqrt sqrt) (m : UFlockingManager F)
    (self : Nat) (agent : AAgent F) :
    RuleSeparationChecked sqrt m self agent = some (RuleSeparation sqrt m self agent) := by
  unfold RuleSeparationChecked RuleSeparation
  rw [foldl_checked (sepStepChecked sqrt m self agent) (sepStep sqrt m self agent)]
  · rw [Option.some_bind]
    unfold sepFinishChecked sepFinish
    simp only []
    split
    · next h =>
      rw [divScalarChecked_eq _ (natCast_ne_zero_of_pos h), Option.some_bind,
        limitVectorChecked_eq hs]
    · rw [Option.some_bind, limitVectorChecked_eq hs]
  · intro acc x
    unfold sepStepChecked sepStep
    rw [Option.some_bind]
    split
    · rfl
    · exact sepAccumChecked_eq hs m agent acc x.2

theorem ruleAlignmentChecked_eq {sqrt : F → F} (hs : IsSqrt sqrt) (m : UFlockingManager F)
    (self : Nat) (agent : AAgent F) :
    RuleAlignmentChecked sqrt m self agent = some (RuleAlignment sqrt m self agent) := by
  unfold RuleAlignmentChecked RuleAlignment aliFinishChecked aliFinish
  simp only []
  split
  · next h =>
    rw [divScalarChecked_eq _ (natCast_ne_zero_of_pos h), Option.some_bind,
      getSafeNormalChecked_eq hs, Option.some_bind, limitVectorChecked_eq hs]
  · rfl

theorem ruleCohesionChecked_eq {sqrt : F → F} (hs : IsSqrt sqrt) (m : UFlockingManager F)
    (self : Nat) (agent : AAgent F) :
    RuleCohesionChecked sqrt m self agent = some (RuleCohesion sqrt m self agent) := by
  unfold RuleCohesionChecked RuleCohesion cohFinishChecked cohFinish
  simp only []
  split
  · next h =>
    rw [divScalarChecked_eq _ (natCast_ne_zero_of_pos h), Option.some_bind,
      getSafeNormalChecked_eq hs, Option.some_bind, limitVectorChecked_eq hs]
  · rfl

theorem newVelocityChecked_eq {sqrt : F → F} (hs : IsSqrt sqrt) (m : UFlockingManager F)
    (dt : F) (self : Nat) (agent : AAgent F) :
    newVelocityChecked sqrt m dt self agent = some (newVelocity sqrt m dt self agent) := by
  unfold newVelocityChecked newVelocity
  rw [ruleSeparationChecked_eq hs, Option.some_bind, ruleAlignmentChecked_eq hs,
    Option.some_bind, ruleCohesionChecked_eq hs, Option.some_bind, limitVectorChecked_eq hs]

theorem flockStepChecked_eq {sqrt : F → F} (hs : IsSqrt sqrt) (dt : F)
    (m : UFlockingManager F) (i : Nat) :
    flockStepChecked sqrt dt (some m) i = some (flockStep sqrt dt m i) := by
  unfold flockStepChecked flockStep
  rw [Option.some_bind]
  cases m.Agents[i]? with
  | none => rfl
  | some agent =>
    simp only []
    rw [newVelocityChecked_eq hs]
    rfl

/-- C17 (no division by zero): with every divisor checked, `Flock` and the three
rules run to completion and return exactly what the unchecked code returns, for
every population (coincident agents and zero velocities included), parameters and
`DeltaTime`: the division by `d` is guarded by `d > 0`, the divisions by `count`
by `count > 0`, the inverse square roots by the tolerance tests; and normalising
the zero vector yields the zero vector (exact arithmetic). -/
theorem flock_no_zero_divisor (sqrt : F → F) (hs : IsSqrt sqrt) (m : UFlockingManager F)
    (dt : F) :
    FlockChecked sqrt m dt = some (Flock sqrt m dt) ∧
    (∀ (self : Nat) (agent : AAgent F),
      RuleSeparationChecked sqrt m self agent = some (RuleSeparation sqrt m self agent) ∧
      RuleAlignmentChecked sqrt m self agent = some (RuleAlignment sqrt m self agent) ∧
      RuleCohesionChecked sqrt m self agent = some (RuleCohesion sqrt m self agent)) ∧
    GetSafeNormal sqrt (ZeroVector : FVector F) = ZeroVector ∧
    Normalize sqrt (ZeroVector : FVector F) = ZeroVector := by
  refine ⟨?_, ?_, getSafeNormal_zero sqrt, ?_⟩
  · unfold FlockChecked Flock flockLoop
    split
    · rfl
    · exact foldl_checked (flockStepChecked sqrt dt) (flockStep sqrt dt)
        (flockStepChecked_eq hs dt) _ m
  · intro self agent
    exact ⟨ruleSeparationChecked_eq hs m self agent, ruleAlignmentChecked_eq hs m self agent,
      ruleCohesionChecked_eq hs m self agent⟩
  · apply normalize_of_le_small
    unfold SizeSquared
    simp [ZeroVector, small_number_pos.le]

/-- Witness of C17: two agents at the same location with zero velocities, over the reals. -/
theorem flock_no_zero_divisor_witness :
    IsSqrt Real.sqrt ∧
    FlockChecked Real.sqrt
        { (twoAgents : UFlockingManager ℝ) with
          Agents := [⟨⟨1, 2, 3⟩, ZeroVector⟩, ⟨⟨1, 2, 3⟩, ZeroVector⟩] } 1
      = some (Flock Real.sqrt
        { (twoAgents : UFlockingManager ℝ) with
          Agents := [⟨⟨1, 2, 3⟩, ZeroVector⟩, ⟨⟨1, 2, 3⟩, ZeroVector⟩] } 1) :=
  ⟨isSqrt_real, (flock_no_zero_divisor Real.sqrt isSqrt_real _ 1).1⟩

/-! ## The step with the values as given -/

/-- C11, as amended: `Flock` performs no validation and cannot fail. For every
`DeltaTime` and all values of `NeighborRadius`, `DesiredSeparation`, `MaxSpeed` and
`MaxForce`, non-positive ones included, `Flock(DeltaTime)` on an initialised
manager neither rejects nor alters these values and carries out the step with
them as given: the agent at index `i` gets the velocity
`LimitVector(v + (sep*w_s + ali*w_a + coh*w_c)*DeltaTime, MaxSpeed)`, the three
rules being computed on the state in which the agents before `i` carry their new
velocities and the agents from `i` on their old ones. -/
theorem flock_no_validation (sqrt : F → F) (m : UFlockingManager F) (dt : F)
    (hinit : m.initialized = true) (i : Nat) (a : AAgent F) (ha : m.Agents[i]? = some a) :
    (Flock sqrt m dt).NeighborRadius = m.NeighborRadius ∧
    (Flock sqrt m dt).DesiredSeparation = m.DesiredSeparation ∧
    (Flock sqrt m dt).MaxSpeed = m.MaxSpeed ∧
    (Flock sqrt m dt).MaxForce = m.MaxForce ∧
    (Flock sqrt m dt).Agents[i]? = some ⟨a.Location,
      LimitVector sqrt
        (add a.Velocity (scale (add (add
          (scale (RuleSeparation sqrt
            { m with Agents := (Flock sqrt m dt).Agents.take i ++ m.Agents.drop i } i a)
            m.seperationWeight)
          (scale (RuleAlignment sqrt
            { m with Agents := (Flock sqrt m dt).Agents.take i ++ m.Agents.drop i } i a)
            m.alignmentWeight))
          (scale (RuleCohesion sqrt
            { m with Agents := (Flock sqrt m dt).Agents.take i ++ m.Agents.drop i } i a)
            m.cohesionWeight)) dt))
        m.MaxSpeed⟩ := by
  have hi : i < m.Agents.length := by
    rcases List.getElem?_eq_some_iff.1 ha with ⟨hlt, _⟩
    exact hlt
  have hF : Flock sqrt m dt = flockLoop sqrt dt m m.Agents.length := by
    unfold Flock
    simp [hinit]
  have hall := flockLoop_sameConfig sqrt dt m m.Agents.length
  refine ⟨?_, ?_, ?_, ?_, ?_⟩
  · rw [hF]
    exact hall.1
  · rw [hF]
    exact hall.2.1
  · rw [hF]
    exact hall.2.2.1
  · rw [hF]
    exact hall.2.2.2.1
  · rw [hF, flockLoop_getElem?_written sqrt dt m hi ha,
      ← flockLoop_agents_split sqrt dt m hi.le hi.le, ← flockLoop_eq]
    have hcfg := flockLoop_sameConfig sqrt dt m i
    unfold newVelocity
    simp only []
    rw [hcfg.2.2.1, hcfg.2.2.2.2.1, hcfg.2.2.2.2.2.1, hcfg.2.2.2.2.2.2.1]

/-- Witness of the amended C11: the first agent of the two-agent scenario with
`DeltaTime = -1`. -/
theorem flock_no_validation_witness :
    (Flock Rat.sqrt (twoAgents : UFlockingManager ℚ) (-1)).MaxSpeed
      = (twoAgents : UFlockingManager ℚ).MaxSpeed ∧
    (Flock Rat.sqrt (twoAgents : UFlockingManager ℚ) (-1)).Agents[0]? = some ⟨⟨0, 0, 0⟩,
      LimitVector Rat.sqrt
        (add ZeroVector (scale (add (add
          (scale (RuleSeparation Rat.sqrt
            { (twoAgents : UFlockingManager ℚ) with
              Agents := (Flock Rat.sqrt (twoAgents : UFlockingManager ℚ) (-1)).Agents.take 0
                ++ (twoAgents : UFlockingManager ℚ).Agents.drop 0 } 0 ⟨⟨0, 0, 0⟩, ZeroVector⟩)
            (twoAgents : UFlockingManager ℚ).seperationWeight)
          (scale (RuleAlignment Rat.sqrt
            { (twoAgents : UFlockingManager ℚ) with
              Agents := (Flock Rat.sqrt (twoAgents : UFlockingManager ℚ) (-1)).Agents.take 0
                ++ (twoAgents : UFlockingManager ℚ).Agents.drop 0 } 0 ⟨⟨0, 0, 0⟩, ZeroVector⟩)
            (twoAgents : UFlockingManager ℚ).alignmentWeight))
          (scale (RuleCohesion Rat.sqrt
            { (twoAgents : UFlockingManager ℚ) with
              Agents := (Flock Rat.sqrt (twoAgents : UFlockingManager ℚ) (-1)).Agents.take 0
                ++ (twoAgents : UFlockingManager ℚ).Agents.drop 0 } 0 ⟨⟨0, 0, 0⟩, ZeroVector⟩)
            (twoAgents : UFlockingManager ℚ).cohesionWeight)) (-1)))
        (twoAgents : UFlockingManager ℚ).MaxSpeed⟩ :=
  ⟨(flock_no_validation Rat.sqrt twoAgents (-1) rfl 0 ⟨⟨0, 0, 0⟩, ZeroVector⟩ rfl).2.2.1,
    (flock_no_validation Rat.sqrt twoAgents (-1) rfl 0 ⟨⟨0, 0, 0⟩, ZeroVector⟩ rfl).2.2.2.2⟩

/-! ## The three rules as means over the agents that pass their tests -/

end Flocking
